import Mathlib

/-!
Verification of the color-conversion core of `coco.js` (RGB / CMYK / HEX
conversion, validation and formatting).

The JavaScript source is shallowly embedded:

* JavaScript numbers are modelled as exact rationals `ℚ`; the possible `NaN`
  outcome of numeric coercion is modelled by the type `JsNum` (`nan` or a
  rational).  `Math.round` becomes `jsRound`, i.e. `⌊q + 1/2⌋` (round half
  toward positive infinity, as JavaScript does).
* JavaScript strings are modelled as `List Char`; `charAt`, `substr`,
  `toUpperCase` and `parseInt(s, 16)` are modelled by `jsCharAt`, `jsSubstr`,
  `jsToUpperStr` (full case mappings, which may lengthen the string) and
  `parseIntHex`.
* The two process-wide display preferences (`isHexSharp`, `isCMYKPercent`)
  are threaded as explicit `Bool` parameters.
* The sentinel `HEX_NOT_VALID` returned by `makeValidHex` is modelled by
  `Option`: `none` is the invalid sentinel.
-/

/-- JavaScript `Math.round q`: the integer nearest to `q`, half rounded
toward positive infinity, i.e. `⌊q + 1/2⌋`. -/
def jsRound (q : ℚ) : ℤ := ⌊q + 1/2⌋

/-- The simple (single-character) part of JavaScript's
`String.prototype.toUpperCase`: a lowercase ASCII letter (code 97–122) is
shifted down by 32, every other character is unchanged. -/
def jsToUpper (c : Char) : Char :=
  if 97 ≤ c.toNat ∧ c.toNat ≤ 122 then Char.ofNat (c.toNat - 32) else c

/-- The Unicode full uppercase mapping of one character, as
`String.prototype.toUpperCase` applies it.  The expanding mappings of the
Latin range (`SpecialCasing.txt`) are listed explicitly: `ß` (U+00DF) and the
ligatures U+FB00–U+FB06; these are the only expanding mappings whose output
can contain Latin letters or digits — in particular the only ones that can
produce characters of the hex alphabet (`ﬀ → FF`, `ﬁ → FI`, `ﬂ → FL`,
`ﬃ → FFI`, `ﬄ → FFL`).  The remaining expanding mappings (Armenian
ligatures, Greek iota subscripts, mappings to combining sequences) and all
simple mappings outside ASCII produce no character of `0-9A-F` and are
modelled by the simple mapping `jsToUpper`. -/
def jsUpperChar (c : Char) : List Char :=
  if c.toNat = 223 then ['S', 'S']
  else if c.toNat = 64256 then ['F', 'F']
  else if c.toNat = 64257 then ['F', 'I']
  else if c.toNat = 64258 then ['F', 'L']
  else if c.toNat = 64259 then ['F', 'F', 'I']
  else if c.toNat = 64260 then ['F', 'F', 'L']
  else if c.toNat = 64261 then ['S', 'T']
  else if c.toNat = 64262 then ['S', 'T']
  else [jsToUpper c]

/-- JavaScript `s.toUpperCase()`: concatenate the full uppercase mapping of
each character, so an expanding mapping lengthens the string. -/
def jsToUpperStr (s : List Char) : List Char :=
  (s.map jsUpperChar).flatten

/-- The slice `s.substr(start, len)` of a JavaScript string. -/
def jsSubstr (s : List Char) (start len : ℕ) : List Char :=
  (s.drop start).take len

/-- JavaScript `s.charAt(n)`: a one-character string, or the empty
string when `n` is out of range. -/
def jsCharAt (s : List Char) (n : ℕ) : List Char :=
  match s.drop n with
  | [] => []
  | c :: _ => [c]

/-- The test `value.charAt(0) == '#'` (false on the empty string, since
`"" == "#"` is false). -/
def startsWithHash : List Char → Bool
  | c :: _ => c == '#'
  | [] => false

/-- A decimal digit as a character: `natDigitChar d` is the character with
code `48 + d`. -/
def natDigitChar (d : ℕ) : Char := Char.ofNat (48 + d)

/-- Decimal digit characters of `n`, most significant first, prepended to
`acc`; `fuel` bounds the recursion depth. -/
def natToCharsAux : ℕ → ℕ → List Char → List Char
  | 0, _, acc => acc
  | fuel + 1, n, acc =>
      if n = 0 then acc
      else natToCharsAux fuel (n / 10) (natDigitChar (n % 10) :: acc)

/-- The decimal representation of a natural number, as JavaScript renders a
nonnegative integer when concatenating it into a string. -/
def natToChars (n : ℕ) : List Char :=
  if n = 0 then ['0'] else natToCharsAux n n []

/-- The decimal representation of an integer. -/
def intToChars (z : ℤ) : List Char :=
  if z < 0 then '-' :: natToChars z.natAbs else natToChars z.toNat

/-- The numeric value of a hexadecimal digit character (`0-9`, `A-F`, `a-f`),
as `parseInt` with radix 16 reads one character. -/
def hexDigitVal (c : Char) : Option ℕ :=
  if 48 ≤ c.toNat ∧ c.toNat ≤ 57 then some (c.toNat - 48)
  else if 65 ≤ c.toNat ∧ c.toNat ≤ 70 then some (c.toNat - 65 + 10)
  else if 97 ≤ c.toNat ∧ c.toNat ≤ 102 then some (c.toNat - 97 + 10)
  else none

/-- Accumulate hexadecimal digits until the first non-digit character, as
`parseInt(s, 16)` does after the first digit. -/
def parseIntHexAux : List Char → ℕ → ℕ
  | [], acc => acc
  | c :: rest, acc =>
      match hexDigitVal c with
      | some d => parseIntHexAux rest (acc * 16 + d)
      | none => acc

/-- JavaScript `parseInt(s, 16)`: `none` models the `NaN` result, returned when the
string does not start with a hexadecimal digit.  (The inputs that occur in
this development carry no leading whitespace, sign or `0x` marker, so those
parts of `parseInt` are not modelled.) -/
def parseIntHex (s : List Char) : Option ℕ :=
  match s with
  | [] => none
  | c :: rest =>
      match hexDigitVal c with
      | some d => some (parseIntHexAux rest d)
      | none => none

/-- A JavaScript numeric value as seen by the validators: either `NaN` (the
result of coercing a non-numeric input) or an exact rational. -/
inductive JsNum where
  | nan : JsNum
  | num : ℚ → JsNum
deriving DecidableEq

/-- JavaScript `isNaN(v)` for an already-coerced numeric value. -/
def jsIsNaN : JsNum → Bool
  | .nan => true
  | .num _ => false

/-- The comparison `v < q`: false when `v` is `NaN`. -/
def jsLtB : JsNum → ℚ → Bool
  | .nan, _ => false
  | .num x, q => decide (x < q)

/-- The comparison `v > q`: false when `v` is `NaN`. -/
def jsGtB : JsNum → ℚ → Bool
  | .nan, _ => false
  | .num x, q => decide (q < x)

/-- Function `makeValidRgb` from `coco.js`: clamp an RGB channel to `[0, 255]`,
sending `NaN` (non-numeric input) and negative values to `0` and values
above `255` to `255`. -/
def makeValidRgb (value : JsNum) : JsNum :=
  if jsIsNaN value || jsLtB value 0 then .num 0
  else if jsGtB value 255 then .num 255
  else value

/-- Step 1 of `makeValidHex`: drop a leading `#` and keep at most the next 6
characters; otherwise cut a string longer than 6 characters down to 6. -/
def cleanHex (value : List Char) : List Char :=
  if startsWithHash value then (value.drop 1).take 6
  else if 6 < value.length then value.take 6
  else value

/-- The stretch step of `makeValidHex`: a three-character string
`charAt(0) charAt(1) charAt(2)` becomes six characters by doubling each one. -/
def expandHex3 (v : List Char) : List Char :=
  match v with
  | [a, b, c] => [a, a, b, b, c, c]
  | other => other

/-- Membership in the character class `[0-9ABCEDF]` of the validation regular
expression (digits and uppercase `A`–`F`). -/
def isHexDigitUp (c : Char) : Bool :=
  (48 ≤ c.toNat && c.toNat ≤ 57) || (65 ≤ c.toNat && c.toNat ≤ 70)

/-- Case-insensitive hexadecimal digit: `0-9`, `A-F` or `a-f`. -/
def isHexDigitCI (c : Char) : Bool :=
  isHexDigitUp c || (97 ≤ c.toNat && c.toNat ≤ 102)

/-- The unanchored test `new RegExp("[0-9ABCEDF]{6}").test(s)`: some
contiguous run of six characters of `s` lies in the class. -/
def regexTestHex6 (s : List Char) : Bool :=
  s.tails.any (fun t => 6 ≤ t.length && (t.take 6).all isHexDigitUp)

/-- Function `makeValidHex` from `coco.js`: clean the string (strip `#` / truncate),
reject when the length is neither 3 nor 6, stretch a length-3 string,
uppercase, and reject when the regular-expression check fails.  `none` models
the `HEX_NOT_VALID` sentinel. -/
def makeValidHex (value : List Char) : Option (List Char) :=
  let v := cleanHex value
  let l := v.length
  if l ≠ 3 ∧ l ≠ 6 then none
  else
    let v := if l = 3 then expandHex3 v else v
    let v := jsToUpperStr v
    if regexTestHex6 v then some v else none

/-- Function `rgb2cmyk` from `coco.js`: `fC = 1 - r/255` (likewise `fM`, `fY`),
`fK = min(1, min(fC, min(fM, fY)))`; at pure black (`fK = 1`) the result is
`(0,0,0,1)`, otherwise each component is rescaled by `(x - fK)/(1 - fK)`. -/
def rgb2cmyk (iR iG iB : ℚ) : ℚ × ℚ × ℚ × ℚ :=
  let fC := 1 - iR / 255
  let fM := 1 - iG / 255
  let fY := 1 - iB / 255
  let fK := min 1 (min fC (min fM fY))
  if fK = 1 then (0, 0, 0, fK)
  else ((fC - fK) / (1 - fK), (fM - fK) / (1 - fK), (fY - fK) / (1 - fK), fK)

/-- Function `cmyk2rgb` from `coco.js`: `c2 = c*(1-k) + k` (likewise for m, y) and
each RGB channel is `Math.round((1 - c2) * 255)`. -/
def cmyk2rgb (fC fM fY fK : ℚ) : ℤ × ℤ × ℤ :=
  let fC := fC * (1 - fK) + fK
  let fM := fM * (1 - fK) + fK
  let fY := fY * (1 - fK) + fK
  (jsRound ((1 - fC) * 255), jsRound ((1 - fM) * 255), jsRound ((1 - fY) * 255))

/-- The function `cmyk2rgb` applied to a CMYK quadruple as returned by `rgb2cmyk`. -/
def cmyk2rgbT (t : ℚ × ℚ × ℚ × ℚ) : ℤ × ℤ × ℤ :=
  cmyk2rgb t.1 t.2.1 t.2.2.1 t.2.2.2

/-- Division instrumented to detect division by zero: `none` when the
divisor is zero (the situation in which JavaScript would produce `NaN` or
`Infinity`). -/
def divChecked (a b : ℚ) : Option ℚ :=
  if b = 0 then none else some (a / b)

/-- Variant of `rgb2cmyk` with every division checked: the result is `none` exactly when
some division in the body divides by zero. -/
def rgb2cmykChecked (iR iG iB : ℚ) : Option (ℚ × ℚ × ℚ × ℚ) :=
  match divChecked iR 255, divChecked iG 255, divChecked iB 255 with
  | some r, some g, some b =>
      let fC := 1 - r
      let fM := 1 - g
      let fY := 1 - b
      let fK := min 1 (min fC (min fM fY))
      if fK = 1 then some (0, 0, 0, fK)
      else
        match divChecked (fC - fK) (1 - fK), divChecked (fM - fK) (1 - fK),
            divChecked (fY - fK) (1 - fK) with
        | some c, some m, some y => some (c, m, y, fK)
        | _, _, _ => none
  | _, _, _ => none

/-- The constant string `"0123456789ABCDEF"` of `rgb2hex`. -/
def hexChars : List Char :=
  ['0', '1', '2', '3', '4', '5', '6', '7', '8', '9', 'A', 'B', 'C', 'D', 'E', 'F']

/-- Function `rgb2hex` from `coco.js` with the `isHexSharp` preference as an explicit
parameter: each channel contributes `hex.charAt((v - v % 16) / 16)` and
`hex.charAt(v % 16)`, and `#` is prepended when the preference is on. -/
def rgb2hex (isHexSharp : Bool) (iR iG iB : ℕ) : List Char :=
  let value :=
    jsCharAt hexChars ((iR - iR % 16) / 16) ++ jsCharAt hexChars (iR % 16)
      ++ (jsCharAt hexChars ((iG - iG % 16) / 16) ++ jsCharAt hexChars (iG % 16))
      ++ (jsCharAt hexChars ((iB - iB % 16) / 16) ++ jsCharAt hexChars (iB % 16))
  if isHexSharp then '#' :: value else value

/-- The two-hex-digit encoding of one channel value: the digit of `n / 16`
followed by the digit of `n % 16`. -/
def toHexPair (n : ℕ) : List Char :=
  jsCharAt hexChars (n / 16) ++ jsCharAt hexChars (n % 16)

/-- Function `hex2rgb` from `coco.js`: split the string into `substr(0,2)`,
`substr(2,2)`, `substr(4,2)` and parse each with `parseInt(·, 16)`; a `none`
component models a `NaN` channel. -/
def hex2rgb (sHEX : List Char) : Option ℕ × Option ℕ × Option ℕ :=
  (parseIntHex (jsSubstr sHEX 0 2), parseIntHex (jsSubstr sHEX 2 2),
    parseIntHex (jsSubstr sHEX 4 2))

/-- Exactly three decimal digit characters for `n < 1000` (hundreds, tens,
units), the fractional part produced by `toFixed(3)`. -/
def pad3 (n : ℕ) : List Char :=
  [natDigitChar (n / 100 % 10), natDigitChar (n / 10 % 10), natDigitChar (n % 10)]

/-- JavaScript `v.toFixed(3)` for a nonnegative value `v`: the decimal string of `v`
rounded to the nearest thousandth (ties toward the larger value), with the
integer part followed by a point and exactly three digits. -/
def toFixed3 (v : ℚ) : List Char :=
  let n := (⌊v * 1000 + 1/2⌋).toNat
  natToChars (n / 1000) ++ '.' :: pad3 (n % 1000)

/-- The body of one loop iteration of `formatCmykOutput`, acting on one
numeric array slot: `Math.round(v * 100) + " %"` in percent mode, `v.toFixed(3)`
otherwise. -/
def formatCmykElem (isCMYKPercent : Bool) (v : ℚ) : List Char :=
  if isCMYKPercent then intToChars (jsRound (v * 100)) ++ [' ', '%']
  else toFixed3 v

/-- The formatted strings `formatCmykOutput` computes for an array holding
the numeric values `aCMYK`, with the `isCMYKPercent` preference as an
explicit parameter. -/
def formatCmykVals (isCMYKPercent : Bool) (aCMYK : List ℚ) : List (List Char) :=
  aCMYK.map (formatCmykElem isCMYKPercent)

/-- A JavaScript value stored in an array slot: a number or a string. -/
inductive JsV where
  | num : ℚ → JsV
  | str : List Char → JsV
deriving DecidableEq

/-- The observable effect of the call `formatCmykOutput(aCMYK)` on an array
object whose slots currently hold the numeric values `a`.  The loop executes
`aCMYK[i] = <formatted string>` for every index `i` of the array and the
function returns the very same array object, so the call yields the pair
(value returned, contents of the caller's array after the call): both are the
array of formatted strings. -/
def callFormatCmykOutput (isCMYKPercent : Bool) (a : List ℚ) :
    List JsV × List JsV :=
  let final := (formatCmykVals isCMYKPercent a).map JsV.str
  (final, final)

/-! ### Helper lemmas -/

theorem jsRound_intCast (z : ℤ) : jsRound (z : ℚ) = z := by
  rw [jsRound, Int.floor_int_add]
  norm_num

theorem jsRound_nonneg {q : ℚ} (h : 0 ≤ q) : 0 ≤ jsRound q := by
  rw [jsRound]
  have : (0:ℚ) ≤ q + 1/2 := by linarith
  exact Int.le_floor.mpr (by exact_mod_cast this)

theorem jsRound_le_255 {q : ℚ} (h : q ≤ 255) : jsRound q ≤ 255 := by
  rw [jsRound]
  have : (q + 1/2 : ℚ) < 256 := by linarith
  have hlt : ⌊q + 1/2⌋ < 256 := Int.floor_lt.mpr (by exact_mod_cast this)
  omega

/-! ### C1: RGB → CMYK → RGB is exact -/

/-- C1: for every integer RGB triplet with channels in [0,255], converting to
CMYK with `rgb2cmyk` and back with `cmyk2rgb` returns exactly the original
triplet. -/
theorem rgb2cmyk_cmyk2rgb_exact (r g b : ℤ)
    (hr0 : 0 ≤ r) (hr1 : r ≤ 255) (hg0 : 0 ≤ g) (hg1 : g ≤ 255)
    (hb0 : 0 ≤ b) (hb1 : b ≤ 255) :
    cmyk2rgbT (rgb2cmyk (r : ℚ) (g : ℚ) (b : ℚ)) = (r, g, b) := by
  by_cases hblack : r = 0 ∧ g = 0 ∧ b = 0
  · obtain ⟨rfl, rfl, rfl⟩ := hblack
    norm_num [rgb2cmyk, cmyk2rgbT, cmyk2rgb, jsRound]
  · have hKne :
        min (1:ℚ) (min (1 - (r:ℚ)/255) (min (1 - (g:ℚ)/255) (1 - (b:ℚ)/255))) ≠ 1 := by
      intro h
      have hM : (1:ℚ) ≤ min (1 - (r:ℚ)/255) (min (1 - (g:ℚ)/255) (1 - (b:ℚ)/255)) :=
        le_trans (le_of_eq h.symm) (min_le_right _ _)
      have hCr : (1:ℚ) ≤ 1 - (r:ℚ)/255 := le_trans hM (min_le_left _ _)
      have hCg : (1:ℚ) ≤ 1 - (g:ℚ)/255 :=
        le_trans hM (le_trans (min_le_right _ _) (min_le_left _ _))
      have hCb : (1:ℚ) ≤ 1 - (b:ℚ)/255 :=
        le_trans hM (le_trans (min_le_right _ _) (min_le_right _ _))
      have hrq : (r:ℚ) ≤ 0 := by linarith
      have hgq : (g:ℚ) ≤ 0 := by linarith
      have hbq : (b:ℚ) ≤ 0 := by linarith
      have hr' : r = 0 := le_antisymm (by exact_mod_cast hrq) hr0
      have hg' : g = 0 := le_antisymm (by exact_mod_cast hgq) hg0
      have hb' : b = 0 := le_antisymm (by exact_mod_cast hbq) hb0
      exact hblack ⟨hr', hg', hb'⟩
    have hker : (1:ℚ) -
        min (1:ℚ) (min (1 - (r:ℚ)/255) (min (1 - (g:ℚ)/255) (1 - (b:ℚ)/255))) ≠ 0 :=
      sub_ne_zero.mpr (Ne.symm hKne)
    simp only [rgb2cmyk, if_neg hKne, cmyk2rgbT, cmyk2rgb, Prod.mk.injEq]
    refine ⟨?_, ?_, ?_⟩ <;>
    · rw [div_mul_cancel₀ _ hker]
      have harg : ∀ x : ℚ, x = r ∨ x = g ∨ x = b →
          (1 - (1 - x/255 -
              min (1:ℚ) (min (1 - (r:ℚ)/255) (min (1 - (g:ℚ)/255) (1 - (b:ℚ)/255))) +
              min (1:ℚ) (min (1 - (r:ℚ)/255) (min (1 - (g:ℚ)/255) (1 - (b:ℚ)/255))))) * 255
            = x := by
        intro x _
        ring
      first
      | rw [harg (r:ℚ) (Or.inl rfl), jsRound_intCast]
      | rw [harg (g:ℚ) (Or.inr (Or.inl rfl)), jsRound_intCast]
      | rw [harg (b:ℚ) (Or.inr (Or.inr rfl)), jsRound_intCast]

/-- Witness for C1 at the spec's scenario input (12, 34, 56). -/
theorem rgb2cmyk_cmyk2rgb_exact_witness :
    cmyk2rgbT (rgb2cmyk ((12:ℤ) : ℚ) ((34:ℤ) : ℚ) ((56:ℤ) : ℚ)) = (12, 34, 56) :=
  rgb2cmyk_cmyk2rgb_exact 12 34 56 (by norm_num) (by norm_num) (by norm_num)
    (by norm_num) (by norm_num) (by norm_num)

/-! ### C5: pure black and absence of division by zero -/

theorem divChecked_eq_some (a b : ℚ) (h : b ≠ 0) : divChecked a b = some (a / b) :=
  if_neg h

/-- C5: `rgb2cmyk 0 0 0` is exactly `(0,0,0,1)`, and no division in
`rgb2cmyk` ever divides by zero (hence no `NaN`): the instrumented
`rgb2cmykChecked`, which fails on any zero divisor, always succeeds and
agrees with `rgb2cmyk` — the `k = 1` branch is what keeps the divisor
`1 - k` nonzero. -/
theorem rgb2cmyk_black_noDivZero :
    rgb2cmyk 0 0 0 = (0, 0, 0, 1)
    ∧ ∀ iR iG iB : ℚ, rgb2cmykChecked iR iG iB = some (rgb2cmyk iR iG iB) := by
  constructor
  · norm_num [rgb2cmyk]
  · intro iR iG iB
    have h255 : ((255:ℚ)) ≠ 0 := by norm_num
    unfold rgb2cmykChecked rgb2cmyk
    rw [divChecked_eq_some _ _ h255, divChecked_eq_some _ _ h255,
      divChecked_eq_some _ _ h255]
    dsimp only
    by_cases hK : min (1:ℚ) (min (1 - iR/255) (min (1 - iG/255) (1 - iB/255))) = 1
    · rw [if_pos hK, if_pos hK]
    · rw [if_neg hK, if_neg hK]
      have hker :
          (1:ℚ) - min (1:ℚ) (min (1 - iR/255) (min (1 - iG/255) (1 - iB/255))) ≠ 0 :=
        fun h => hK (sub_eq_zero.mp h).symm
      rw [divChecked_eq_some _ _ hker, divChecked_eq_some _ _ hker,
        divChecked_eq_some _ _ hker]

/-! ### C6: the CMYK → RGB formula and the range of its results -/

theorem roundChannel_range (a k : ℚ) (ha0 : 0 ≤ a) (ha1 : a ≤ 1)
    (hk0 : 0 ≤ k) (hk1 : k ≤ 1) :
    0 ≤ jsRound ((1 - (a * (1 - k) + k)) * 255)
    ∧ jsRound ((1 - (a * (1 - k) + k)) * 255) ≤ 255 := by
  have h1 : 0 ≤ a * (1 - k) := mul_nonneg ha0 (by linarith)
  have h2 : a * (1 - k) ≤ 1 - k := by nlinarith
  have hx0 : (0:ℚ) ≤ (1 - (a * (1 - k) + k)) * 255 := by nlinarith
  have hx1 : (1 - (a * (1 - k) + k)) * 255 ≤ 255 := by nlinarith
  exact ⟨jsRound_nonneg hx0, jsRound_le_255 hx1⟩

/-- C6: for CMYK components in [0,1], `cmyk2rgb` computes
`c2 = c*(1-k) + k` (likewise for m, y), returns `round((1-c2)*255)` per
channel, and every returned channel is an integer in [0,255]. -/
theorem cmyk2rgb_formula_range (c m y k : ℚ)
    (hc0 : 0 ≤ c) (hc1 : c ≤ 1) (hm0 : 0 ≤ m) (hm1 : m ≤ 1)
    (hy0 : 0 ≤ y) (hy1 : y ≤ 1) (hk0 : 0 ≤ k) (hk1 : k ≤ 1) :
    cmyk2rgb c m y k =
      (jsRound ((1 - (c * (1 - k) + k)) * 255),
        jsRound ((1 - (m * (1 - k) + k)) * 255),
        jsRound ((1 - (y * (1 - k) + k)) * 255))
    ∧ (0 ≤ (cmyk2rgb c m y k).1 ∧ (cmyk2rgb c m y k).1 ≤ 255)
    ∧ (0 ≤ (cmyk2rgb c m y k).2.1 ∧ (cmyk2rgb c m y k).2.1 ≤ 255)
    ∧ (0 ≤ (cmyk2rgb c m y k).2.2 ∧ (cmyk2rgb c m y k).2.2 ≤ 255) := by
  refine ⟨rfl, ?_, ?_, ?_⟩
  · exact roundChannel_range c k hc0 hc1 hk0 hk1
  · exact roundChannel_range m k hm0 hm1 hk0 hk1
  · exact roundChannel_range y k hy0 hy1 hk0 hk1

/-- Witness for C6 at the CMYK value (0.5, 0.25, 1.0, 0.0). -/
theorem cmyk2rgb_formula_range_witness :
    0 ≤ (cmyk2rgb (1/2) (1/4) 1 0).1 ∧ (cmyk2rgb (1/2) (1/4) 1 0).1 ≤ 255 :=
  (cmyk2rgb_formula_range (1/2) (1/4) 1 0 (by norm_num) (by norm_num)
    (by norm_num) (by norm_num) (by norm_num) (by norm_num) (by norm_num)
    (by norm_num)).2.1

/-! ### C4: makeValidRgb clamps totally -/

/-- C4: `makeValidRgb` always returns a numeric value in [0,255] and never
signals an error: `NaN` (any non-numeric input after coercion) and negative
values give 0, values above 255 give 255, and in-range values are returned
unchanged. -/
theorem makeValidRgb_spec (v : JsNum) :
    (∃ q : ℚ, makeValidRgb v = .num q ∧ 0 ≤ q ∧ q ≤ 255)
    ∧ (v = .nan → makeValidRgb v = .num 0)
    ∧ ∀ q : ℚ, v = .num q →
        (q < 0 → makeValidRgb v = .num 0)
        ∧ (255 < q → makeValidRgb v = .num 255)
        ∧ (0 ≤ q → q ≤ 255 → makeValidRgb v = .num q) := by
  cases v with
  | nan =>
      refine ⟨⟨0, by simp [makeValidRgb, jsIsNaN], by norm_num, by norm_num⟩,
        fun _ => by simp [makeValidRgb, jsIsNaN], ?_⟩
      intro q hq
      exact JsNum.noConfusion hq
  | num x =>
      have hmv : makeValidRgb (.num x) =
          if x < 0 then .num 0 else if 255 < x then .num 255 else .num x := by
        simp [makeValidRgb, jsIsNaN, jsLtB, jsGtB]
      refine ⟨?_, fun h => JsNum.noConfusion h, ?_⟩
      · rw [hmv]
        split_ifs with h1 h2
        · exact ⟨0, rfl, by norm_num, by norm_num⟩
        · exact ⟨255, rfl, by norm_num, by norm_num⟩
        · exact ⟨x, rfl, by linarith, by linarith⟩
      · intro q hq
        injection hq with h
        subst h
        refine ⟨fun h1 => by rw [hmv, if_pos h1], fun h2 => ?_, fun h0 h255 => ?_⟩
        · rw [hmv, if_neg (by linarith), if_pos h2]
        · rw [hmv, if_neg (by linarith), if_neg (by linarith)]

/-- Witness for C4: the out-of-range input 300 is clamped to 255. -/
theorem makeValidRgb_spec_witness : makeValidRgb (.num 300) = .num 255 :=
  ((makeValidRgb_spec (.num 300)).2.2 300 rfl).2.1 (by norm_num)

/-! ### C2 and C8: RGB ↔ HEX -/

set_option maxRecDepth 4096 in
theorem hexPair_parse : ∀ n : ℕ, n < 256 → parseIntHex (toHexPair n) = some n := by
  decide

set_option maxRecDepth 4096 in
theorem toHexPair_len_up :
    ∀ n : ℕ, n < 256 →
      (toHexPair n).length = 2 ∧ (toHexPair n).all isHexDigitUp = true := by
  decide

theorem rgb2hex_eq (sharp : Bool) (r g b : ℕ) :
    rgb2hex sharp r g b =
      (if sharp then ['#'] else []) ++ (toHexPair r ++ (toHexPair g ++ toHexPair b)) := by
  have hdiv : ∀ n : ℕ, (n - n % 16) / 16 = n / 16 := by intro n; omega
  cases sharp <;> simp [rgb2hex, toHexPair, hdiv, List.append_assoc]

/-- C2 (amended): with the hex-prefix preference disabled, the HEX round-trip
is exact: `hex2rgb (rgb2hex false r g b) = (r, g, b)` for every integer RGB
triplet in range. -/
theorem hex2rgb_rgb2hex_noSharp (r g b : ℕ)
    (hr : r ≤ 255) (hg : g ≤ 255) (hb : b ≤ 255) :
    hex2rgb (rgb2hex false r g b) = (some r, some g, some b) := by
  obtain ⟨r1, r2, hR⟩ := List.length_eq_two.mp (toHexPair_len_up r (by omega)).1
  obtain ⟨g1, g2, hG⟩ := List.length_eq_two.mp (toHexPair_len_up g (by omega)).1
  obtain ⟨b1, b2, hB⟩ := List.length_eq_two.mp (toHexPair_len_up b (by omega)).1
  have pr := hexPair_parse r (by omega)
  have pg := hexPair_parse g (by omega)
  have pb := hexPair_parse b (by omega)
  rw [hR] at pr
  rw [hG] at pg
  rw [hB] at pb
  rw [rgb2hex_eq, hR, hG, hB]
  simpa [hex2rgb, jsSubstr] using ⟨pr, pg, pb⟩

/-- Counterexample to C2 as stated: with the hex-prefix preference enabled the
round-trip fails, because `hex2rgb` does not strip the `#` that `rgb2hex`
prepends (the red channel parses to `NaN`). -/
theorem hex2rgb_rgb2hex_sharp_counterexample :
    hex2rgb (rgb2hex true 255 0 128) ≠ (some 255, some 0, some 128) := by
  decide

/-- Witness for the amended C2 at (255, 0, 128) with the preference off. -/
theorem hex2rgb_rgb2hex_noSharp_witness :
    hex2rgb (rgb2hex false 255 0 128) = (some 255, some 0, some 128) :=
  hex2rgb_rgb2hex_noSharp 255 0 128 (by norm_num) (by norm_num) (by norm_num)

/-- C8: `rgb2hex` renders each channel as two uppercase hexadecimal digits in
R,G,B order (the digit pair of channel `v` parses back to `v`), prepends `#`
exactly when the hex-prefix preference is enabled, and
`rgb2hex(255,0,128)` is `"FF0080"` without the preference and `"#FF0080"`
with it. -/
theorem rgb2hex_spec (sharp : Bool) (r g b : ℕ)
    (hr : r ≤ 255) (hg : g ≤ 255) (hb : b ≤ 255) :
    rgb2hex sharp r g b =
      (if sharp then ['#'] else []) ++ (toHexPair r ++ (toHexPair g ++ toHexPair b))
    ∧ ((toHexPair r).length = 2 ∧ (toHexPair g).length = 2 ∧ (toHexPair b).length = 2)
    ∧ (∀ c ∈ toHexPair r ++ (toHexPair g ++ toHexPair b), isHexDigitUp c = true)
    ∧ (parseIntHex (toHexPair r) = some r ∧ parseIntHex (toHexPair g) = some g
        ∧ parseIntHex (toHexPair b) = some b)
    ∧ rgb2hex false 255 0 128 = ['F', 'F', '0', '0', '8', '0']
    ∧ rgb2hex true 255 0 128 = ['#', 'F', 'F', '0', '0', '8', '0'] := by
  refine ⟨rgb2hex_eq sharp r g b, ?_, ?_, ?_, by decide, by decide⟩
  · exact ⟨(toHexPair_len_up r (by omega)).1, (toHexPair_len_up g (by omega)).1,
      (toHexPair_len_up b (by omega)).1⟩
  · intro c hc
    rcases List.mem_append.mp hc with h | h'
    · exact List.all_eq_true.mp (toHexPair_len_up r (by omega)).2 c h
    · rcases List.mem_append.mp h' with h | h
      · exact List.all_eq_true.mp (toHexPair_len_up g (by omega)).2 c h
      · exact List.all_eq_true.mp (toHexPair_len_up b (by omega)).2 c h
  · exact ⟨hexPair_parse r (by omega), hexPair_parse g (by omega),
      hexPair_parse b (by omega)⟩

/-- Witness for C8 at (255, 0, 128) with the preference on. -/
theorem rgb2hex_spec_witness :
    rgb2hex true 255 0 128 = ['#', 'F', 'F', '0', '0', '8', '0'] :=
  (rgb2hex_spec true 255 0 128 (by norm_num) (by norm_num)
    (by norm_num)).2.2.2.2.2

/-! ### C7 and C9: CMYK output formatting -/

theorem natDigitChar_toNat : ∀ d : ℕ, d < 10 → (natDigitChar d).toNat = 48 + d := by
  decide

theorem natDigitChar_digit (d : ℕ) :
    48 ≤ (natDigitChar (d % 10)).toNat ∧ (natDigitChar (d % 10)).toNat ≤ 57 := by
  have h := natDigitChar_toNat (d % 10) (Nat.mod_lt _ (by norm_num))
  omega

theorem pad3_digits (n : ℕ) : ∀ c ∈ pad3 n, 48 ≤ c.toNat ∧ c.toNat ≤ 57 := by
  intro c hc
  simp only [pad3, List.mem_cons, List.not_mem_nil, or_false] at hc
  rcases hc with rfl | rfl | rfl
  · exact natDigitChar_digit (n / 100)
  · exact natDigitChar_digit (n / 10)
  · exact natDigitChar_digit n

theorem natToCharsAux_digits :
    ∀ fuel n acc, (∀ c ∈ acc, 48 ≤ c.toNat ∧ c.toNat ≤ 57) →
      ∀ c ∈ natToCharsAux fuel n acc, 48 ≤ c.toNat ∧ c.toNat ≤ 57 := by
  intro fuel
  induction fuel with
  | zero =>
      intro n acc hacc
      simpa [natToCharsAux] using hacc
  | succ fuel ih =>
      intro n acc hacc c hc
      simp only [natToCharsAux] at hc
      split_ifs at hc with h
      · exact hacc c hc
      · refine ih (n / 10) _ ?_ c hc
        intro c' hc'
        rcases List.mem_cons.mp hc' with rfl | h'
        · exact natDigitChar_digit n
        · exact hacc c' h'

theorem natToChars_digits (n : ℕ) : ∀ c ∈ natToChars n, 48 ≤ c.toNat ∧ c.toNat ≤ 57 := by
  unfold natToChars
  split_ifs with h
  · intro c hc
    simp only [List.mem_singleton] at hc
    subst hc
    decide
  · exact natToCharsAux_digits n n [] (by simp)

/-- C7: in percent mode `formatCmykOutput` maps each value `v` to
`round(v*100)` followed by a percent marker; otherwise it renders each value
with exactly 3 digits after the decimal point (digit characters only, no
trimming); on `[0.5, 0.25, 1.0, 0.0]` it yields `["50 %","25 %","100 %","0 %"]`
in percent mode and `["0.500","0.250","1.000","0.000"]` otherwise. -/
theorem formatCmyk_spec :
    formatCmykVals true [1/2, 1/4, 1, 0] =
      [['5', '0', ' ', '%'], ['2', '5', ' ', '%'], ['1', '0', '0', ' ', '%'],
        ['0', ' ', '%']]
    ∧ formatCmykVals false [1/2, 1/4, 1, 0] =
      [['0', '.', '5', '0', '0'], ['0', '.', '2', '5', '0'], ['1', '.', '0', '0', '0'],
        ['0', '.', '0', '0', '0']]
    ∧ (∀ l : List ℚ, formatCmykVals true l =
        l.map (fun v => intToChars (jsRound (v * 100)) ++ [' ', '%']))
    ∧ (∀ l : List ℚ, formatCmykVals false l = l.map toFixed3)
    ∧ ∀ v : ℚ, ∃ ip frac, toFixed3 v = ip ++ '.' :: frac ∧ frac.length = 3
        ∧ (∀ c ∈ frac, 48 ≤ c.toNat ∧ c.toNat ≤ 57)
        ∧ (∀ c ∈ ip, 48 ≤ c.toNat ∧ c.toNat ≤ 57) := by
  have r1 : jsRound ((1:ℚ)/2 * 100) = 50 := by norm_num [jsRound]
  have r2 : jsRound ((1:ℚ)/4 * 100) = 25 := by norm_num [jsRound]
  have r3 : jsRound ((1:ℚ) * 100) = 100 := by norm_num [jsRound]
  have r4 : jsRound ((0:ℚ) * 100) = 0 := by norm_num [jsRound]
  have f1 : ((⌊(1:ℚ)/2 * 1000 + 1/2⌋).toNat) = 500 := by norm_num; decide
  have f2 : ((⌊(1:ℚ)/4 * 1000 + 1/2⌋).toNat) = 250 := by norm_num; decide
  have f3 : ((⌊(1:ℚ) * 1000 + 1/2⌋).toNat) = 1000 := by norm_num; decide
  have f4 : ((⌊(0:ℚ) * 1000 + 1/2⌋).toNat) = 0 := by norm_num
  refine ⟨?_, ?_, fun l => rfl, fun l => rfl, ?_⟩
  · simp only [formatCmykVals, List.map_cons, List.map_nil, formatCmykElem, if_true,
      r1, r2, r3, r4]
    decide
  · simp only [formatCmykVals, List.map_cons, List.map_nil, formatCmykElem,
      Bool.false_eq_true, if_false, toFixed3, f1, f2, f3, f4]
    decide
  · intro v
    refine ⟨natToChars ((⌊v * 1000 + 1/2⌋).toNat / 1000),
      pad3 ((⌊v * 1000 + 1/2⌋).toNat % 1000), rfl, rfl, ?_, ?_⟩
    · exact pad3_digits _
    · exact natToChars_digits _

/-- Witness for C7 at the percent-mode example. -/
theorem formatCmyk_spec_witness :
    formatCmykVals true [1/2, 1/4, 1, 0] =
      [['5', '0', ' ', '%'], ['2', '5', ' ', '%'], ['1', '0', '0', ' ', '%'],
        ['0', ' ', '%']] :=
  formatCmyk_spec.1

/-- Counterexample to C9 as stated: after `formatCmykOutput` runs on an array
holding `[0.5, 0.25, 1.0, 0.0]`, the caller's array no longer holds those four
numbers — every slot has been overwritten with a formatted string. -/
theorem formatCmyk_mutation_counterexample :
    (callFormatCmykOutput false [1/2, 1/4, 1, 0]).2 ≠
      [JsV.num (1/2), JsV.num (1/4), JsV.num 1, JsV.num 0] := by
  simp [callFormatCmykOutput, formatCmykVals]

/-- C9 (amended): `formatCmykOutput` mutates its argument in place: after the
call the caller's array holds exactly the formatted strings (the same, aliased
array that is also returned), and for any nonempty numeric array its contents
after the call differ from the original numeric contents. -/
theorem formatCmyk_mutation (p : Bool) (a : List ℚ) :
    (callFormatCmykOutput p a).2 = (formatCmykVals p a).map JsV.str
    ∧ (callFormatCmykOutput p a).2 = (callFormatCmykOutput p a).1
    ∧ (a ≠ [] → (callFormatCmykOutput p a).2 ≠ a.map JsV.num) := by
  refine ⟨rfl, rfl, ?_⟩
  intro hne
  cases a with
  | nil => exact absurd rfl hne
  | cons q rest =>
      intro h
      simp [callFormatCmykOutput, formatCmykVals] at h

/-- Witness for the amended C9 on the one-element array `[1.0]`. -/
theorem formatCmyk_mutation_witness :
    (callFormatCmykOutput false [(1:ℚ)]).2 ≠ [(1:ℚ)].map JsV.num :=
  (formatCmyk_mutation false [(1:ℚ)]).2.2 (by simp)

/-! ### C3 and C10: HEX validation -/

theorem jsToUpper_fix {x : Char} (h : isHexDigitUp x = true) : jsToUpper x = x := by
  simp only [isHexDigitUp, Bool.or_eq_true, Bool.and_eq_true, decide_eq_true_eq] at h
  rw [jsToUpper, if_neg (by omega)]

theorem regexTestHex6_eq_all {s : List Char} (h : s.length = 6) :
    regexTestHex6 s = s.all isHexDigitUp := by
  apply Bool.coe_iff_coe.mp
  constructor
  · intro hany
    rw [regexTestHex6, List.any_eq_true] at hany
    obtain ⟨t, ht, hcond⟩ := hany
    rw [Bool.and_eq_true, decide_eq_true_eq] at hcond
    obtain ⟨hlen, hall⟩ := hcond
    have hsuf : t <:+ s := (List.mem_tails t s).mp ht
    have hts : t = s := hsuf.eq_of_length (by
      have := hsuf.length_le
      omega)
    subst hts
    rwa [List.take_of_length_le (by omega)] at hall
  · intro hall
    rw [regexTestHex6, List.any_eq_true]
    refine ⟨s, (List.mem_tails s s).mpr (List.suffix_refl s), ?_⟩
    rw [Bool.and_eq_true, decide_eq_true_eq]
    refine ⟨by omega, ?_⟩
    rwa [List.take_of_length_le (by omega)]

theorem jsUpperChar_of_CI {c : Char} (h : isHexDigitCI c = true) :
    jsUpperChar c = [jsToUpper c] := by
  simp only [isHexDigitCI, isHexDigitUp, Bool.or_eq_true, Bool.and_eq_true,
    decide_eq_true_eq] at h
  unfold jsUpperChar
  split_ifs <;> first | rfl | omega

theorem jsUpperChar_of_up {c : Char} (h : isHexDigitUp c = true) :
    jsUpperChar c = [c] := by
  have hCI : isHexDigitCI c = true := by simp [isHexDigitCI, h]
  rw [jsUpperChar_of_CI hCI, jsToUpper_fix h]

theorem jsToUpperStr_fix {v : List Char} (h : ∀ c ∈ v, isHexDigitUp c = true) :
    jsToUpperStr v = v := by
  induction v with
  | nil => rfl
  | cons c rest ih =>
      rw [jsToUpperStr, List.map_cons, List.flatten_cons, jsUpperChar_of_up (h c (by simp))]
      rw [jsToUpperStr] at ih
      rw [ih (fun x hx => h x (by simp [hx]))]
      rfl

theorem makeValidHex_len6 {s : List Char} (c1 c2 c3 c4 c5 c6 : Char)
    (hv : cleanHex s = [c1, c2, c3, c4, c5, c6]) :
    makeValidHex s =
      if regexTestHex6 (jsToUpperStr [c1, c2, c3, c4, c5, c6])
      then some (jsToUpperStr [c1, c2, c3, c4, c5, c6]) else none := by
  simp only [makeValidHex, hv, List.length_cons, List.length_nil]
  norm_num

theorem length_eq_six {l : List Char} (h : l.length = 6) :
    ∃ c1 c2 c3 c4 c5 c6, l = [c1, c2, c3, c4, c5, c6] := by
  obtain ⟨c1, l1, rfl⟩ := l.exists_cons_of_ne_nil (by rintro rfl; simp at h)
  obtain ⟨c2, l2, rfl⟩ := l1.exists_cons_of_ne_nil (by rintro rfl; simp at h)
  obtain ⟨c3, l3, rfl⟩ := l2.exists_cons_of_ne_nil (by rintro rfl; simp at h)
  obtain ⟨c4, l4, rfl⟩ := l3.exists_cons_of_ne_nil (by rintro rfl; simp at h)
  obtain ⟨c5, l5, rfl⟩ := l4.exists_cons_of_ne_nil (by rintro rfl; simp at h)
  obtain ⟨c6, l6, rfl⟩ := l5.exists_cons_of_ne_nil (by rintro rfl; simp at h)
  have h6 : l6 = [] := by simpa using h
  subst h6
  exact ⟨c1, c2, c3, c4, c5, c6, rfl⟩

theorem makeValidHex_some_regex {s h : List Char} (hs : makeValidHex s = some h) :
    regexTestHex6 h = true := by
  simp only [makeValidHex] at hs
  split_ifs at hs
  all_goals
    injection hs with hh
    subst hh
    assumption

/-- Counterexample to C10 as stated: on six ligature `ﬀ` characters
`makeValidHex` succeeds with the twelve-character result `FFFFFFFFFFFF`, but
re-validating that successful result truncates it to six characters, so
idempotence on successful results fails. -/
theorem makeValidHex_idem_counterexample :
    makeValidHex (List.replicate 6 (Char.ofNat 64256)) = some (List.replicate 12 'F')
    ∧ makeValidHex (List.replicate 12 'F') ≠ some (List.replicate 12 'F') := by
  decide

/-- C10 (amended): `makeValidHex` is idempotent on its successful results of
length 6: whenever `makeValidHex s` returns a 6-character string `h` rather
than the invalid sentinel, `makeValidHex h` returns `h` itself.  (A result
longer than 6 characters, possible only through an expanding uppercase
mapping, is truncated on re-validation; see the counterexample.) -/
theorem makeValidHex_idem (s h : List Char) (hs : makeValidHex s = some h)
    (hlen : h.length = 6) : makeValidHex h = some h := by
  have hreg : regexTestHex6 h = true := makeValidHex_some_regex hs
  have hup : ∀ c ∈ h, isHexDigitUp c = true := by
    rw [regexTestHex6_eq_all hlen] at hreg
    exact List.all_eq_true.mp hreg
  obtain ⟨c1, c2, c3, c4, c5, c6, rfl⟩ := length_eq_six hlen
  have h1 := hup c1 (by simp)
  have hhash : (c1 == '#') = false := by
    rw [beq_eq_false_iff_ne]
    rintro rfl
    exact absurd h1 (by decide)
  have hclean : cleanHex [c1, c2, c3, c4, c5, c6] = [c1, c2, c3, c4, c5, c6] := by
    simp [cleanHex, startsWithHash, hhash]
  rw [makeValidHex_len6 c1 c2 c3 c4 c5 c6 hclean, jsToUpperStr_fix hup, if_pos hreg]

/-- Witness for the amended C10: the 6-character successful result `"AABBCC"`
of `"abc"` is a fixed point. -/
theorem makeValidHex_idem_witness :
    makeValidHex ['A', 'A', 'B', 'B', 'C', 'C'] = some ['A', 'A', 'B', 'B', 'C', 'C'] :=
  makeValidHex_idem ['a', 'b', 'c'] ['A', 'A', 'B', 'B', 'C', 'C'] (by decide) (by decide)
